import Mathlib

/-!
Verification development for the disk-backed B-tree storage core
(`src/btree`: `btree.rs`, `page.rs`, `pager.rs`) and its value codec
(`src/row/src/col.rs`).  The Rust sources are shallowly embedded:

* machine integers become `Nat`/`Int` with explicit truncation where the
  source truncates;
* byte buffers become `List Nat` (each element a byte value), with every
  Rust slice operation bounds-checked: an out-of-range slice — a panic in
  Rust — is modelled by `Option.none`;
* the table file owned by `Pager` becomes an explicit `DbState`: the root
  pointer and append cursor from the header, a store of decoded pages by
  byte offset, the schema region, and a log of the write operations issued
  (in order), which models the order of positioned file writes;
* the unbounded `loop` in `BTree::insert`/`search`/`delete` becomes fuel
  recursion returning `Option.none` when the fuel runs out, so claims are
  stated on runs that complete;
* page serialisation (`TryInto<Vec<u8>> for Page`) is modelled by keeping
  the decoded page and its size guard: the encoder's only observable
  behaviour besides the byte image is the `Encoding` failure on pages
  larger than `PAGE_SIZE`, which the model keeps exactly.

Error strings carried by `DbError` variants are never inspected by the
modelled code, so the embedded error type drops them.
-/

namespace Sql

/-- Byte strings: Rust `&[u8]` / `String` payloads as lists of byte values. -/
abbrev Bytes := List Nat

/-- `src/row/src/col.rs`: constant `COL_TYPE_SIZE`. -/
def COL_TYPE_SIZE : Nat := 1

/-- `src/row/src/col.rs`: constant `INT_SIZE`. -/
def INT_SIZE : Nat := 4

/-- `src/row/src/col.rs`: constant `BIGINT_SIZE`. -/
def BIGINT_SIZE : Nat := 8

/-- `src/row/src/col.rs`: constant `VARCHAR_LEN_SIZE`. -/
def VARCHAR_LEN_SIZE : Nat := 2

/-- `src/row/src/col.rs`: `enum Col { Int(i32), BigInt(i64), Varchar(String, u16) }`.
The `i32`/`i64` payloads are embedded as `Int`, the `u16` capacity as `Nat`,
and the string payload as its bytes. -/
inductive Col where
  | int (value : Int)
  | bigInt (value : Int)
  | varchar (value : Bytes) (size : Nat)
deriving DecidableEq

/-- `src/row/src/col.rs`: `Col::get_type` (`INT_TYPE = 1`, `BIG_INT_TYPE = 2`,
`VARCHAR_TYPE = 3`). -/
def Col.get_type : Col → Nat
  | .int _ => 1
  | .bigInt _ => 2
  | .varchar _ _ => 3

/-- `src/row/src/col.rs`: `Pageable::size` for `Col`. -/
def Col.size : Col → Nat
  | .int _ => COL_TYPE_SIZE + INT_SIZE
  | .bigInt _ => COL_TYPE_SIZE + BIGINT_SIZE
  | .varchar _ size => COL_TYPE_SIZE + VARCHAR_LEN_SIZE * 2 + size

/-- Rust `Ord` for `String` / `[u8]`: lexicographic byte comparison. -/
def bytesCompare : Bytes → Bytes → Ordering
  | [], [] => .eq
  | [], _ :: _ => .lt
  | _ :: _, [] => .gt
  | a :: as_, b :: bs =>
    match compare a b with
    | .eq => bytesCompare as_ bs
    | o => o

/-- `src/row/src/col.rs`: the `#[derive(PartialOrd, Ord)]` ordering on `Col`:
variants rank in declaration order (`Int < BigInt < Varchar`); within a
variant fields compare left to right, so `Varchar` compares its string
payload first and its `u16` capacity second. -/
def Col.cmp : Col → Col → Ordering
  | .int a, .int b => compare a b
  | .int _, .bigInt _ => .lt
  | .int _, .varchar _ _ => .lt
  | .bigInt _, .int _ => .gt
  | .bigInt a, .bigInt b => compare a b
  | .bigInt _, .varchar _ _ => .lt
  | .varchar _ _, .int _ => .gt
  | .varchar _ _, .bigInt _ => .gt
  | .varchar a asz, .varchar b bsz =>
    match bytesCompare a b with
    | .eq => compare asz bsz
    | o => o

/-- `src/row/src/row.rs`: `struct Row { columns: Vec<Col> }`. -/
structure Row where
  columns : List Col
deriving DecidableEq

/-- Modelled from the spec: the self-describing `Row` codec's `size`.  The
crate snapshot under `src/` ships a draft `row.rs` whose `Row` has no
`Pageable` impl (its `read` takes a schema argument), yet `src/btree` calls
`Row::size`, `Row::read(buf)` and `Row::write(buf)` from a `Pageable` impl
that is not under `src/`.  Spec §4.1: a row's wire format is `1 byte column
count, then each column's self-describing value`, so its size is one byte
plus the sum of the column sizes.  This matches the byte counts asserted by
`src/btree/src/page.rs` tests `leaf_size` (18 for one `Int` key and a
one-`Int` row) and `check_key_value_size`. -/
def Row.size (r : Row) : Nat := 1 + (r.columns.map Col.size).sum

/-- `src/btree/src/page.rs`: `PAGE_SIZE = 4 * 1024`. -/
def PAGE_SIZE : Nat := 4 * 1024

/-- `src/btree/src/page.rs`: `LEN_SIZE = 2`. -/
def LEN_SIZE : Nat := 2

/-- `src/btree/src/page.rs`: `PTR_SIZE = 4`. -/
def PTR_SIZE : Nat := 4

/-- `src/btree/src/page.rs`: `TYPE_SIZE = 1`. -/
def TYPE_SIZE : Nat := 1

/-- `src/btree/src/page.rs`: `MAX_KEY_VALUE_SIZE = PAGE_SIZE - TYPE_SIZE - PTR_SIZE - LEN_SIZE`. -/
def MAX_KEY_VALUE_SIZE : Nat := PAGE_SIZE - TYPE_SIZE - PTR_SIZE - LEN_SIZE

/-- `src/btree/src/page.rs`: `enum Page` — interior node of `(key, child
offset)` entries or leaf of `(key, row)` entries, each with a parent offset
(`0` denotes the root). -/
inductive Page where
  | node (parent : Nat) (children : List (Col × Nat))
  | leaf (parent : Nat) (values : List (Col × Row))
deriving DecidableEq

/-- `src/btree/src/page.rs`: `Page::leaf_size` — header (`TYPE_SIZE +
PTR_SIZE + LEN_SIZE`) plus `k.size() + v.size()` per entry. -/
def Page.leaf_size (values : List (Col × Row)) : Nat :=
  TYPE_SIZE + PTR_SIZE + LEN_SIZE + (values.map (fun kv => kv.1.size + kv.2.size)).sum

/-- `src/btree/src/page.rs`: `Page::node_size` — header plus `key.size() +
PTR_SIZE` per entry. -/
def Page.node_size (values : List (Col × Nat)) : Nat :=
  TYPE_SIZE + PTR_SIZE + LEN_SIZE + (values.map (fun kv => kv.1.size + PTR_SIZE)).sum

/-- The size checked by `TryInto<Vec<u8>> for Page`: `node_size` for an
interior page, `leaf_size` for a leaf. -/
def Page.encoded_size : Page → Nat
  | .node _ children => Page.node_size children
  | .leaf _ values => Page.leaf_size values

/-- Rust `slice::binary_search_by` (the loop from the standard library):
halve `[left, right)` on the probe's `Ordering`; `Except.ok` is Rust's
`Ok(index)`, `Except.error` Rust's `Err(insertion point)`.  The fuel is an
upper bound on the iteration count (the interval shrinks every step), so
`binarySearchBy` below never exhausts it. -/
def binarySearchGo {α : Type} (xs : List α) (f : α → Ordering) :
    Nat → Nat → Nat → Except Nat Nat
  | 0, left, _ => .error left
  | fuel + 1, left, right =>
    if left < right then
      let mid := (left + right) / 2
      match xs.get? mid with
      | none => .error left
      | some x =>
        match f x with
        | .lt => binarySearchGo xs f fuel (mid + 1) right
        | .gt => binarySearchGo xs f fuel left mid
        | .eq => .ok mid
    else .error left

/-- Rust `slice::binary_search_by` over a whole list. -/
def binarySearchBy {α : Type} (xs : List α) (f : α → Ordering) : Except Nat Nat :=
  binarySearchGo xs f (xs.length + 1) 0 xs.length

/-- `src/btree/src/page.rs`: `insert_key_value` — binary-search for the key;
overwrite in place on an exact match, append past the end, otherwise insert
at the located index. -/
def insert_key_value {α : Type} [DecidableEq α]
    (values : List (Col × α)) (value : Col × α) : List (Col × α) :=
  let idx :=
    match binarySearchBy values (fun kv => Col.cmp kv.1 value.1) with
    | .ok x => x
    | .error x => x
  if idx < values.length ∧ (values.getD idx value).1 = value.1 then
    values.set idx value
  else if idx ≥ values.length then
    values ++ [value]
  else
    values.insertIdx idx value

/-- `src/btree/src/page.rs`: `get_index` — binary-search for the key; on a
miss clamp the insertion point to the previous entry (`0` stays `0`). -/
def get_index {α : Type} (values : List (Col × α)) (value : Col) : Nat :=
  match binarySearchBy values (fun kv => Col.cmp kv.1 value) with
  | .ok x => x
  | .error x => if x = 0 then 0 else x - 1

/-- `src/btree/src/page.rs`: the `while size > MAX_KEY_VALUE_SIZE` loop of
`split_leaf`: move the front entry of `right` to the back of `left` until
`right`'s page size fits.  The source updates `size` incrementally by the
moved entry's key+row size, which equals recomputing `leaf_size`.  On an
empty `right` the guard is false (`leaf_size [] = 7 ≤ 4089`), so returning
`(left, [])` directly agrees with the source loop. -/
def splitLeafShift : List (Col × Row) → List (Col × Row) →
    List (Col × Row) × List (Col × Row)
  | left, [] => (left, [])
  | left, v :: rest =>
    if Page.leaf_size (v :: rest) > MAX_KEY_VALUE_SIZE then
      splitLeafShift (left ++ [v]) rest
    else (left, v :: rest)

/-- `src/btree/src/page.rs`: `split_leaf` — cut at `len / 2`
(`Vec::split_off`), then shift entries left while `right` overflows. -/
def split_leaf (values : List (Col × Row)) : List (Col × Row) × List (Col × Row) :=
  let mid := values.length / 2
  splitLeafShift (values.take mid) (values.drop mid)

/-- `src/btree/src/page.rs`: the shifting loop of `split_node`, with
`node_size` and per-entry size `key.size() + PTR_SIZE`. -/
def splitNodeShift : List (Col × Nat) → List (Col × Nat) →
    List (Col × Nat) × List (Col × Nat)
  | left, [] => (left, [])
  | left, v :: rest =>
    if Page.node_size (v :: rest) > MAX_KEY_VALUE_SIZE then
      splitNodeShift (left ++ [v]) rest
    else (left, v :: rest)

/-- `src/btree/src/page.rs`: `split_node`. -/
def split_node (values : List (Col × Nat)) : List (Col × Nat) × List (Col × Nat) :=
  let mid := values.length / 2
  splitNodeShift (values.take mid) (values.drop mid)

/-- `src/common/src/error.rs`: `enum DbError`, with the string payloads
dropped (they are never inspected by the modelled code).  `ioErr` stands for
`DbError::IO`. -/
inductive DbError where
  | ioErr
  | unexpected
  | encoding
  | maxSize (received limit : Nat)
  | eof
  | invalidInput
deriving DecidableEq

/-- One positioned file write issued by the `Pager`: a root-pointer update
(`set_root`), a page rewrite at a given offset (`write_page_at_offset`), or
a page append at the cursor (`write_page`). -/
inductive Ev where
  | setRoot (offset : Nat)
  | writeAt (offset : Nat)
  | append (offset : Nat)
deriving DecidableEq

/-- The table file plus `Pager` state: header root pointer, append cursor,
the pages by byte offset, the schema region of the header, and the ordered
log of writes issued so far. -/
structure DbState where
  root : Nat
  cursor : Nat
  pages : List (Nat × Page)
  schema : List Nat
  log : List Ev
deriving DecidableEq

/-- Look a page up by offset (first binding wins; offsets are unique by
construction). -/
def pagesGet : List (Nat × Page) → Nat → Option Page
  | [], _ => none
  | (o, p) :: rest, off => if o = off then some p else pagesGet rest off

/-- Store a page at an offset, replacing any existing binding. -/
def pagesPut : List (Nat × Page) → Nat → Page → List (Nat × Page)
  | [], off, pg => [(off, pg)]
  | (o, p) :: rest, off, pg =>
    if o = off then (off, pg) :: rest else (o, p) :: pagesPut rest off pg

/-- `src/btree/src/pager.rs`: `HEADER_SIZE = 16 * 1024`. -/
def HEADER_SIZE : Nat := 16 * 1024

namespace Pager

/-- `src/btree/src/pager.rs`: `Pager::get_root` — the 4-byte big-endian
root pointer at offset 0 (0 for a fresh header). -/
def get_root (st : DbState) : Nat := st.root

/-- `src/btree/src/pager.rs`: `Pager::set_root` — write the root pointer at
offset 0 and flush. -/
def set_root (st : DbState) (offset : Nat) : DbState :=
  { st with root := offset, log := st.log ++ [.setRoot offset] }

/-- `src/btree/src/pager.rs`: `Pager::get_page` — seek to the offset, read
`PAGE_SIZE` bytes, decode.  Reading past the end of the file fails with an
`IO` error (`read_exact`); the model keeps pages decoded, so the decode
itself cannot fail here. -/
def get_page (st : DbState) (offset : Nat) : Except DbError Page :=
  match pagesGet st.pages offset with
  | some p => .ok p
  | none => .error .ioErr

/-- `src/btree/src/pager.rs`: `Pager::write_page` — serialise (the
`TryInto` guard rejects pages over `PAGE_SIZE` with `Encoding`, leaving the
file untouched), write at the cursor, advance the cursor by `PAGE_SIZE`,
and return the offset written. -/
def write_page (st : DbState) (page : Page) : Except DbError Nat × DbState :=
  if page.encoded_size > PAGE_SIZE then (.error .encoding, st)
  else
    (.ok st.cursor,
      { st with
        pages := pagesPut st.pages st.cursor page
        cursor := st.cursor + PAGE_SIZE
        log := st.log ++ [.append st.cursor] })

/-- `src/btree/src/pager.rs`: `Pager::write_page_at_offset` — positioned
rewrite through the same serialiser; no cursor change. -/
def write_page_at_offset (st : DbState) (page : Page) (offset : Nat) :
    Except DbError Unit × DbState :=
  if page.encoded_size > PAGE_SIZE then (.error .encoding, st)
  else
    (.ok (),
      { st with
        pages := pagesPut st.pages offset page
        log := st.log ++ [.writeAt offset] })

/-- `src/btree/src/pager.rs`: `Pager::get_offset` — the append cursor. -/
def get_offset (st : DbState) : Nat := st.cursor

/-- `src/btree/src/pager.rs`: `Pager::get_next_offset` — cursor plus one
page. -/
def get_next_offset (st : DbState) : Nat := st.cursor + PAGE_SIZE

end Pager

/-- `Pager::new` on an absent or empty file: `init_header` zero-fills the
header region (root pointer 0, schema bytes 0) and sets the cursor to
`HEADER_SIZE`. -/
def freshFileState : DbState :=
  { root := 0, cursor := HEADER_SIZE, pages := [], schema := [], log := [] }

namespace BTree

/-- `src/btree/src/btree.rs`: `BTree::rewrite_parent` — for each child
listed under the new right page, read it and rewrite it in place with its
parent pointer set to the right page's offset. -/
def rewrite_parent (st : DbState) (right_offset : Nat) :
    List (Col × Nat) → Except DbError Unit × DbState
  | [] => (.ok (), st)
  | (_, child_offset) :: rest =>
    match Pager.get_page st child_offset with
    | .error e => (.error e, st)
    | .ok pg =>
      let updated : Page :=
        match pg with
        | .node _ children => .node right_offset children
        | .leaf _ values => .leaf right_offset values
      match Pager.write_page_at_offset st updated child_offset with
      | (.error e, st') => (.error e, st')
      | (.ok _, st') => rewrite_parent st' right_offset rest

/-- `src/btree/src/btree.rs`: the `loop` body of `BTree::insert`, one fuel
unit per iteration.  The loop state is the current offset, the current
in-memory page, and the pending promotion `new_key_offset`.  `none` is a
run that ran out of fuel or hit a Rust panic (`children[0]` /
`values[0]` on an empty split half, `children[idx]` out of range). -/
def insertLoop : Nat → DbState → Col → Row → Nat → Page → Option (Col × Nat) →
    Option (Except DbError Unit × DbState)
  | 0, _, _, _, _, _, _ => none
  | fuel + 1, st, key, value, offset, page, pending =>
    match page with
    | .node parent children =>
      match pending with
      | some (pkey, child_offset) =>
        let children := insert_key_value children (pkey, child_offset)
        if Page.node_size children ≤ PAGE_SIZE then
          match Pager.write_page_at_offset st (.node parent children) offset with
          | (.error e, st') => some (.error e, st')
          | (.ok _, st') => some (.ok (), st')
        else
          let split := split_node children
          match split.1.get? 0, split.2.get? 0 with
          | some leftHead, some rightHead =>
            let left_key := leftHead.1
            let right_key := rightHead.1
            if parent = 0 then
              let newParent := Pager.get_offset st
              let right_offset := Pager.get_next_offset st
              let left : Page := .node newParent split.1
              match rewrite_parent st right_offset split.2 with
              | (.error e, st') => some (.error e, st')
              | (.ok _, st') =>
                let right : Page := .node newParent split.2
                let newRoot : Page := .node 0 [(left_key, child_offset), (right_key, right_offset)]
                let st' := Pager.set_root st' newParent
                match Pager.write_page_at_offset st' left offset with
                | (.error e, st2) => some (.error e, st2)
                | (.ok _, st2) =>
                  match Pager.write_page st2 newRoot with
                  | (.error e, st3) => some (.error e, st3)
                  | (.ok _, st3) =>
                    match Pager.write_page st3 right with
                    | (.error e, st4) => some (.error e, st4)
                    | (.ok _, st4) => some (.ok (), st4)
            else
              match Pager.get_page st parent with
              | .error e => some (.error e, st)
              | .ok parentPage =>
                let right : Page := .node parent split.2
                match Pager.write_page st right with
                | (.error e, st') => some (.error e, st')
                | (.ok right_offset, st') =>
                  match rewrite_parent st' right_offset split.2 with
                  | (.error e, st2) => some (.error e, st2)
                  | (.ok _, st2) =>
                    insertLoop fuel st2 key value parent parentPage
                      (some (right_key, right_offset))
          | _, _ => none
      | none =>
        let idx := get_index children key
        match children.get? idx with
        | none => none
        | some child =>
          match Pager.get_page st child.2 with
          | .error e => some (.error e, st)
          | .ok childPage => insertLoop fuel st key value child.2 childPage none
    | .leaf parent values =>
      let kv_size := key.size + value.size
      if kv_size > MAX_KEY_VALUE_SIZE then
        some (.error (.maxSize kv_size MAX_KEY_VALUE_SIZE), st)
      else
        let values := insert_key_value values (key, value)
        if Page.leaf_size values ≤ PAGE_SIZE then
          match Pager.write_page_at_offset st (.leaf parent values) offset with
          | (.error e, st') => some (.error e, st')
          | (.ok _, st') => some (.ok (), st')
        else
          let split := split_leaf values
          match split.1.get? 0, split.2.get? 0 with
          | some leftHead, some rightHead =>
            let left_key := leftHead.1
            let right_key := rightHead.1
            if parent = 0 then
              let newParent := Pager.get_offset st
              let right_offset := Pager.get_next_offset st
              let left : Page := .leaf newParent split.1
              let right : Page := .leaf newParent split.2
              let newRoot : Page := .node 0 [(left_key, offset), (right_key, right_offset)]
              let st' := Pager.set_root st newParent
              match Pager.write_page_at_offset st' left offset with
              | (.error e, st2) => some (.error e, st2)
              | (.ok _, st2) =>
                match Pager.write_page st2 newRoot with
                | (.error e, st3) => some (.error e, st3)
                | (.ok _, st3) =>
                  match Pager.write_page st3 right with
                  | (.error e, st4) => some (.error e, st4)
                  | (.ok _, st4) => some (.ok (), st4)
            else
              let left : Page := .leaf parent split.1
              match Pager.write_page_at_offset st left offset with
              | (.error e, st') => some (.error e, st')
              | (.ok _, st') =>
                match Pager.get_page st' parent with
                | .error e => some (.error e, st')
                | .ok parentPage =>
                  let right : Page := .leaf parent split.2
                  match Pager.write_page st' right with
                  | (.error e, st2) => some (.error e, st2)
                  | (.ok right_offset, st2) =>
                    insertLoop fuel st2 key value parent parentPage
                      (some (right_key, right_offset))
          | _, _ => none

/-- `src/btree/src/btree.rs`: `BTree::insert` — read the root, read its
page, run the loop with no pending promotion. -/
def insert (fuel : Nat) (st : DbState) (key : Col) (value : Row) :
    Option (Except DbError Unit × DbState) :=
  let offset := Pager.get_root st
  match Pager.get_page st offset with
  | .error e => some (.error e, st)
  | .ok page => insertLoop fuel st key value offset page none

/-- `src/btree/src/btree.rs`: the `loop` of `BTree::search`. -/
def searchLoop : Nat → DbState → Col → Page → Option (Except DbError (Option Row))
  | 0, _, _, _ => none
  | fuel + 1, st, key, page =>
    match page with
    | .node _ children =>
      let idx := get_index children key
      match children.get? idx with
      | none => none
      | some child =>
        match Pager.get_page st child.2 with
        | .error e => some (.error e)
        | .ok page' => searchLoop fuel st key page'
    | .leaf _ values =>
      match binarySearchBy values (fun kv => Col.cmp kv.1 key) with
      | .ok idx =>
        match values.get? idx with
        | some kv => some (.ok (some kv.2))
        | none => none
      | .error _ => some (.ok none)

/-- `src/btree/src/btree.rs`: `BTree::search`. -/
def search (fuel : Nat) (st : DbState) (key : Col) : Option (Except DbError (Option Row)) :=
  match Pager.get_page st (Pager.get_root st) with
  | .error e => some (.error e)
  | .ok page => searchLoop fuel st key page

/-- `src/btree/src/btree.rs`: the `loop` of `BTree::delete` — descend via
`get_index`; at the leaf, remove the found entry and rewrite the leaf in
place, or return `None`. -/
def deleteLoop : Nat → DbState → Col → Nat → Page →
    Option (Except DbError (Option Row) × DbState)
  | 0, _, _, _, _ => none
  | fuel + 1, st, key, offset, page =>
    match page with
    | .leaf parent values =>
      match binarySearchBy values (fun kv => Col.cmp kv.1 key) with
      | .ok idx =>
        match values.get? idx with
        | none => none
        | some kv =>
          match Pager.write_page_at_offset st (.leaf parent (values.eraseIdx idx)) offset with
          | (.error e, st') => some (.error e, st')
          | (.ok _, st') => some (.ok (some kv.2), st')
      | .error _ => some (.ok none, st)
    | .node _ children =>
      let idx := get_index children key
      match children.get? idx with
      | none => none
      | some child =>
        match Pager.get_page st child.2 with
        | .error e => some (.error e, st)
        | .ok page' => deleteLoop fuel st key child.2 page'

/-- `src/btree/src/btree.rs`: `BTree::delete`. -/
def delete (fuel : Nat) (st : DbState) (key : Col) :
    Option (Except DbError (Option Row) × DbState) :=
  let offset := Pager.get_root st
  match Pager.get_page st offset with
  | .error e => some (.error e, st)
  | .ok page => deleteLoop fuel st key offset page

/-- `src/btree/src/btree.rs`: `BTree::new` — open the pager; if the stored
root pointer is 0, write an empty leaf with parent 0 at the cursor and make
it the root. -/
def new (st : DbState) : Except DbError Unit × DbState :=
  let root_offset := Pager.get_root st
  if root_offset = 0 then
    match Pager.write_page st (.leaf 0 []) with
    | (.error e, st') => (.error e, st')
    | (.ok off, st') => (.ok (), Pager.set_root st' off)
  else (.ok (), st)

end BTree

/-- Test-harness runner (mirrors the repository's own tests): perform the
inserts in order, returning the final state only if every insert completed
and returned `Ok(())`. -/
def insertAll (fuel : Nat) (st : DbState) : List (Col × Row) → Option DbState
  | [] => some st
  | (k, r) :: rest =>
    match BTree.insert fuel st k r with
    | some (.ok _, st') => insertAll fuel st' rest
    | _ => none

/-- Test-harness runner: perform the inserts in order, keeping whatever
state each insert leaves behind (errors included), as a sequence of calls
on one `BTree` would. -/
def runInserts (fuel : Nat) (st : DbState) : List (Col × Row) → DbState
  | [] => st
  | (k, r) :: rest =>
    match BTree.insert fuel st k r with
    | some (_, st') => runInserts fuel st' rest
    | none => st

/-- Test-harness helper: the state left by one insert (the pre-state if the
fuel ran out, which never happens in the concrete runs below). -/
def afterInsert (fuel : Nat) (st : DbState) (k : Col) (r : Row) : DbState :=
  match BTree.insert fuel st k r with
  | some p => p.2
  | none => st

/-- Test-harness helper: the state left by one delete. -/
def afterDelete (fuel : Nat) (st : DbState) (k : Col) : DbState :=
  match BTree.delete fuel st k with
  | some p => p.2
  | none => st

/-- Every page stored in the file fits the page budget. -/
def pagesValid (st : DbState) : Prop :=
  ∀ p ∈ st.pages, Page.encoded_size p.2 ≤ PAGE_SIZE

instance (st : DbState) : Decidable (pagesValid st) :=
  List.decidableBAll _ st.pages

/-! ### Byte-level `Col` codec (`src/row/src/col.rs`)

Rust slice accesses panic when out of range; the codec functions therefore
return `Option`, with `none` modelling a panic.  The `Result` layer of the
source only ever carries `Encoding` (from an unknown tag); `copy_from_slice`
and friends never return errors, they panic. -/

/-- Rust `&buffer[off..off+len]`: the slice's bytes, or a panic (`none`)
when the range is out of bounds. -/
def readSlice (buffer : Bytes) (off len : Nat) : Option Bytes :=
  if off + len ≤ buffer.length then some ((buffer.drop off).take len) else none

/-- Rust `buffer[off..off+src.len()].copy_from_slice(src)`: the updated
buffer, or a panic (`none`) when the range is out of bounds. -/
def writeSlice (buffer : Bytes) (off : Nat) (src : Bytes) : Option Bytes :=
  if off + src.length ≤ buffer.length then
    some (buffer.take off ++ src ++ buffer.drop (off + src.length))
  else none

/-- Big-endian bytes to `Nat` (`from_be_bytes` on the unsigned view). -/
def beNat (bs : Bytes) : Nat := bs.foldl (fun acc b => acc * 256 + b) 0

/-- `u16::to_be_bytes` (truncating its argument to 16 bits, as a Rust `as
u16` cast does). -/
def u16ToBe (n : Nat) : Bytes := [n / 256 % 256, n % 256]

/-- `u32::to_be_bytes` of the low 32 bits. -/
def u32ToBe (n : Nat) : Bytes :=
  [n / 2 ^ 24 % 256, n / 2 ^ 16 % 256, n / 2 ^ 8 % 256, n % 256]

/-- `u64::to_be_bytes` of the low 64 bits. -/
def u64ToBe (n : Nat) : Bytes :=
  [n / 2 ^ 56 % 256, n / 2 ^ 48 % 256, n / 2 ^ 40 % 256, n / 2 ^ 32 % 256,
   n / 2 ^ 24 % 256, n / 2 ^ 16 % 256, n / 2 ^ 8 % 256, n % 256]

/-- `i32::to_be_bytes`: two's-complement 32-bit image. -/
def i32ToBe (v : Int) : Bytes := u32ToBe (v % (2 ^ 32)).toNat

/-- `i64::to_be_bytes`. -/
def i64ToBe (v : Int) : Bytes := u64ToBe (v % (2 ^ 64)).toNat

/-- `i32::from_be_bytes`: reinterpret the unsigned value as two's
complement. -/
def i32FromBe (bs : Bytes) : Int :=
  let u := beNat bs
  if u < 2 ^ 31 then (u : Int) else (u : Int) - 2 ^ 32

/-- `i64::from_be_bytes`. -/
def i64FromBe (bs : Bytes) : Int :=
  let u := beNat bs
  if u < 2 ^ 63 then (u : Int) else (u : Int) - 2 ^ 64

/-- `src/row/src/col.rs`: `Pageable::write` for `Col` — tag byte at offset
0, then the payload; a `Varchar` writes its declared capacity, its actual
length as `u16`, and the string bytes, and reports `1 + 2 + 2 + cap` bytes
written.  The string payload is written byte for byte
(`value.as_bytes()`). -/
def Col.write (c : Col) (buffer : Bytes) : Option (Bytes × Nat) :=
  match writeSlice buffer 0 [c.get_type] with
  | none => none
  | some buf =>
    match c with
    | .int v =>
      match writeSlice buf COL_TYPE_SIZE (i32ToBe v) with
      | none => none
      | some buf2 => some (buf2, COL_TYPE_SIZE + INT_SIZE)
    | .bigInt v =>
      match writeSlice buf COL_TYPE_SIZE (i64ToBe v) with
      | none => none
      | some buf2 => some (buf2, COL_TYPE_SIZE + BIGINT_SIZE)
    | .varchar s size =>
      match writeSlice buf COL_TYPE_SIZE (u16ToBe size) with
      | none => none
      | some buf2 =>
        match writeSlice buf2 (COL_TYPE_SIZE + VARCHAR_LEN_SIZE) (u16ToBe s.length) with
        | none => none
        | some buf3 =>
          match writeSlice buf3 (COL_TYPE_SIZE + 2 * VARCHAR_LEN_SIZE) s with
          | none => none
          | some buf4 => some (buf4, COL_TYPE_SIZE + VARCHAR_LEN_SIZE * 2 + size)

/-- `src/row/src/col.rs`: `Col::parse_varchar` — read the declared capacity
and the stored length as big-endian `u16`, copy `len` bytes of payload
(`String::from_utf8_lossy` is the identity on the valid byte strings the
writer produces), and report `2 + 2 + cap` bytes consumed. -/
def Col.parse_varchar (buffer : Bytes) : Option (Col × Nat) :=
  match readSlice buffer 0 VARCHAR_LEN_SIZE with
  | none => none
  | some mx =>
    let max_len := beNat mx
    match readSlice buffer VARCHAR_LEN_SIZE VARCHAR_LEN_SIZE with
    | none => none
    | some ln =>
      let len := beNat ln
      match readSlice buffer (2 * VARCHAR_LEN_SIZE) len with
      | none => none
      | some value => some (.varchar value max_len, 2 * VARCHAR_LEN_SIZE + max_len)

/-- `src/row/src/col.rs`: `Pageable::read` for `Col` — dispatch on the tag
byte (`buffer[0]`, a panic on an empty buffer); tags 1/2 slice a
fixed-width integer (a panic when the buffer is shorter), tag 3 defers to
`parse_varchar`, and any other tag is an `Encoding` error. -/
def Col.read (buffer : Bytes) : Option (Except DbError (Col × Nat)) :=
  match buffer with
  | [] => none
  | col_type :: _ =>
    if col_type = 1 then
      match readSlice buffer COL_TYPE_SIZE INT_SIZE with
      | none => none
      | some bs => some (.ok (.int (i32FromBe bs), COL_TYPE_SIZE + INT_SIZE))
    else if col_type = 2 then
      match readSlice buffer COL_TYPE_SIZE BIGINT_SIZE with
      | none => none
      | some bs => some (.ok (.bigInt (i64FromBe bs), COL_TYPE_SIZE + BIGINT_SIZE))
    else if col_type = 3 then
      match Col.parse_varchar (buffer.drop COL_TYPE_SIZE) with
      | none => none
      | some cr => some (.ok (cr.1, COL_TYPE_SIZE + cr.2))
    else some (.error .encoding)

/-- The Rust-typed domain of `Col` values: `i32`/`i64` payload ranges,
`u16` capacity, byte-valued string contents no longer than the capacity. -/
def ColWF : Col → Prop
  | .int v => -(2 ^ 31) ≤ v ∧ v < 2 ^ 31
  | .bigInt v => -(2 ^ 63) ≤ v ∧ v < 2 ^ 63
  | .varchar s size => s.length ≤ size ∧ size < 2 ^ 16 ∧ ∀ b ∈ s, b < 256

instance : (c : Col) → Decidable (ColWF c)
  | .int v => inferInstanceAs (Decidable (-(2 ^ 31) ≤ v ∧ v < 2 ^ 31))
  | .bigInt v => inferInstanceAs (Decidable (-(2 ^ 63) ≤ v ∧ v < 2 ^ 63))
  | .varchar s size =>
    inferInstanceAs (Decidable (s.length ≤ size ∧ size < 2 ^ 16 ∧ ∀ b ∈ s, b < 256))

/-! ### Concrete scenarios

`st0` is the state of a `BTree` freshly created on an empty file.  Scenario
A replays the shape of the repository's own `node_split` test (text keys
and one-column text rows with capacity 2000, so a leaf holds one entry and
an interior root split occurs on the third insert).  Scenario B drives
`split_leaf` into producing an oversized left half.  Scenario N calls the
insert loop directly at an interior root split. -/

/-- A fresh tree on an empty file. -/
def st0 : DbState := (BTree.new freshFileState).2

/-- Scenario A key `i`: the text of digit `i` with capacity 2000. -/
def keyA (i : Nat) : Col := .varchar [48 + i] 2000

/-- Scenario A row `i`: one text column of capacity 2000. -/
def rowA (i : Nat) : Row := ⟨[.varchar [48 + i] 2000]⟩

/-- Scenario A after inserting key 0. -/
def scnA1 : DbState := runInserts 20 st0 [(keyA 0, rowA 0)]

/-- Scenario A after inserting keys 0 and 1 (leaf split, root promoted). -/
def scnA2 : DbState := runInserts 20 st0 [(keyA 0, rowA 0), (keyA 1, rowA 1)]

/-- Scenario A after inserting keys 0, 1 and 2 (interior root split). -/
def scnA3 : DbState :=
  runInserts 20 st0 [(keyA 0, rowA 0), (keyA 1, rowA 1), (keyA 2, rowA 2)]

/-- Scenario B first key: entry size 20. -/
def keyB0 : Col := .varchar [97] 5

/-- Scenario B first row. -/
def rowB0 : Row := ⟨[.varchar [] 4]⟩

/-- Scenario B middle key: together with `rowB1` an entry of the maximal
admitted size `MAX_KEY_VALUE_SIZE = 4089`. -/
def keyB1 : Col := .varchar [98] 2000

/-- Scenario B middle row. -/
def rowB1 : Row := ⟨[.varchar [] 2078]⟩

/-- Scenario B last key: entry size 100. -/
def keyB2 : Col := .varchar [99] 45

/-- Scenario B last row. -/
def rowB2 : Row := ⟨[.varchar [] 44]⟩

/-- Scenario B after inserting the first and last keys: the root leaf holds
both entries (size 127). -/
def scnB2 : DbState := runInserts 20 st0 [(keyB0, rowB0), (keyB2, rowB2)]

/-- The leaf entry list the third Scenario B insert hands to `split_leaf`:
sizes 20, 4089, 100 (page size 4216 > `PAGE_SIZE`). -/
def scnBList : List (Col × Row) :=
  insert_key_value [(keyB0, rowB0), (keyB2, rowB2)] (keyB1, rowB1)

/-- Scenario N: a file with two leaves at offsets 24576 and 28672 and the
cursor at 32768, for driving the insert loop's interior-root-split branch
directly. -/
def stN : DbState :=
  ⟨999, 32768, [(24576, Page.leaf 0 []), (28672, Page.leaf 0 [])], [], []⟩

/-- Scenario D: two integer keys on a fresh tree (one leaf). -/
def scnD2 : DbState := runInserts 20 st0 [(.int 1, ⟨[.int 10]⟩), (.int 2, ⟨[.int 20]⟩)]

/-- Scenario E: one text key of capacity 1 on a fresh tree. -/
def scnE : DbState := afterInsert 20 st0 (.varchar [97] 1) ⟨[.int 7]⟩

/-- Scenario C: one small integer entry on a fresh tree. -/
def scnC : DbState := afterInsert 5 st0 (.int 1) ⟨[.int 2]⟩

/-- Scenario A: the state left by the loop of the second insert (used to
instantiate the leaf-root-promotion order). -/
def scnA2loop : DbState :=
  match BTree.insertLoop 20 scnA1 (keyA 1) (rowA 1) HEADER_SIZE
      (.leaf 0 [(keyA 0, rowA 0)]) none with
  | some p => p.2
  | none => scnA1

/-- Scenario N: the state left by the insert loop entered at an interior
root with a pending promotion. -/
def scnNloop : DbState :=
  match BTree.insertLoop 5 stN (keyA 0) (rowA 0) HEADER_SIZE
      (.node 0 [(keyA 0, HEADER_SIZE), (keyA 1, 24576)]) (some (keyA 2, 28672)) with
  | some p => p.2
  | none => stN

/-! ### Claim theorems -/

/-- C1.  The claim — every inserted key is found again by `search` — fails
on the code: after the three successful Scenario A inserts (the third of
which splits the interior root), `search` on the first inserted key returns
`None`.  The interior-root-split branch of `BTree::insert` builds the new
root as `[(left_key, child_offset), (right_key, right_offset)]`, where
`child_offset` is the offset taken from the pending promotion (the lower
right page appended by the preceding leaf split) instead of the split
page's own offset, so the left half of the old root becomes unreachable. -/
theorem c1_insert_then_search_failing_run :
    insertAll 20 st0 [(keyA 0, rowA 0), (keyA 1, rowA 1), (keyA 2, rowA 2)] = some scnA3 ∧
    BTree.search 20 scnA3 (keyA 0) = some (.ok none) :=
  ⟨rfl, rfl⟩

/-- C2.  At the same failing run: before the third insert the root (an
interior page about to split) sits at offset 20480; the new root the split
writes has children `[(key 0, 28672), (key 1, 36864)]` — its left child
offset is 28672, the leaf appended by the leaf split just below, not 20480,
the offset of the left split page, which the claim (and the spec) require. -/
theorem c2_root_split_children_failing_run :
    insertAll 20 st0 [(keyA 0, rowA 0), (keyA 1, rowA 1), (keyA 2, rowA 2)] = some scnA3 ∧
    scnA2.root = 20480 ∧
    scnA3.root = 32768 ∧
    pagesGet scnA3.pages 32768 = some (.node 0 [(keyA 0, 28672), (keyA 1, 36864)]) ∧
    (28672 : Nat) ≠ 20480 :=
  ⟨rfl, rfl, rfl, rfl, by decide⟩

/-- C4 counterexample.  In the Scenario A leaf-root-promoting split (second
insert), the write log appended by the split is `[set_root 20480,
rewrite 16384, append 20480, append 24576]`: the header root-pointer update
is the FIRST write of the split, not the last as the claim states. -/
theorem c4_counterexample :
    insertAll 20 st0 [(keyA 0, rowA 0), (keyA 1, rowA 1)] = some scnA2 ∧
    scnA2.log = scnA1.log ++
      [.setRoot 20480, .writeAt 16384, .append 20480, .append 24576] ∧
    (scnA2.log.drop scnA1.log.length).getLast? ≠ some (Ev.setRoot 20480) :=
  ⟨rfl, rfl, by decide⟩

/-- C7 counterexample.  `Col::read` does not return `EOF` on a buffer
shorter than the declared record: on `[1]` (an `Int` record cut after the
tag) it hits an out-of-bounds slice — a panic, modelled `none` — and on
`[3, 0, 10, 0, 0]` (a `Text` record declaring capacity 10, so a 15-byte
record, in a 5-byte buffer) it SUCCEEDS, reporting 15 bytes consumed. -/
theorem c7_counterexample :
    Col.read [1] = none ∧
    Col.read [3, 0, 10, 0, 0] = some (.ok (.varchar [] 10, 15)) :=
  ⟨rfl, rfl⟩

/-- C8 counterexample.  The derived ordering on `Col` compares the `u16`
capacity after the payload, so two `Varchar` values with equal bytes and
different capacities are NOT equal — and a key inserted with capacity 1 is
not found when searched with capacity 2. -/
theorem c8_counterexample :
    Col.cmp (.varchar [97] 1) (.varchar [97] 2) = .lt ∧
    Col.cmp (.varchar [97] 1) (.varchar [97] 2) ≠ .eq ∧
    BTree.insert 20 st0 (.varchar [97] 1) ⟨[.int 7]⟩ = some (.ok (), scnE) ∧
    BTree.search 20 scnE (.varchar [97] 2) = some (.ok none) :=
  ⟨rfl, by decide, rfl, rfl⟩

/-- C10.  `BTree::new` over an absent or empty file builds a valid empty
tree: the pager zero-fills the header (root pointer 0, cursor
`HEADER_SIZE`), then `new` writes an empty leaf with parent 0 at offset
`HEADER_SIZE` and stores that offset as the root, so the root pointer is
`HEADER_SIZE ≠ 0`, and both `search` and `delete` on the fresh tree return
`None` without error and without touching the state. -/
theorem c10_new_on_empty_file :
    BTree.new freshFileState = (.ok (), st0) ∧
    st0.root = HEADER_SIZE ∧
    HEADER_SIZE ≠ 0 ∧
    pagesGet st0.pages HEADER_SIZE = some (.leaf 0 []) ∧
    st0.cursor = HEADER_SIZE + PAGE_SIZE ∧
    (∀ (fuel : Nat) (k : Col), BTree.search (fuel + 1) st0 k = some (.ok none)) ∧
    (∀ (fuel : Nat) (k : Col), BTree.delete (fuel + 1) st0 k = some (.ok none, st0)) :=
  ⟨rfl, rfl, by decide, rfl, rfl, fun _ _ => rfl, fun _ _ => rfl⟩

/-! ### Page-budget invariant (C3)

Every page accepted by the page writers satisfies the `PAGE_SIZE` guard of
`TryInto<Vec<u8>> for Page`, so any state reachable through the insert loop
keeps all stored pages within the budget. -/

/-- A binding of `pagesPut` is either the new binding or one of the old. -/
theorem mem_pagesPut {ps : List (Nat × Page)} {off : Nat} {pg : Page} {p : Nat × Page}
    (h : p ∈ pagesPut ps off pg) : p = (off, pg) ∨ p ∈ ps := by
  induction ps with
  | nil => simpa [pagesPut] using h
  | cons q rest ih =>
    simp only [pagesPut] at h
    by_cases hq : q.1 = off
    · rw [if_pos hq] at h
      rcases List.mem_cons.mp h with h1 | h1
      · exact Or.inl h1
      · exact Or.inr (List.mem_cons_of_mem _ h1)
    · rw [if_neg hq] at h
      rcases List.mem_cons.mp h with h1 | h1
      · exact Or.inr (h1 ▸ List.mem_cons_self _ _)
      · rcases ih h1 with h2 | h2
        · exact Or.inl h2
        · exact Or.inr (List.mem_cons_of_mem _ h2)

theorem valid_of_write_page {st : DbState} {pg : Page} {p : Except DbError Nat × DbState}
    (h : Pager.write_page st pg = p) (hv : pagesValid st) : pagesValid p.2 := by
  unfold Pager.write_page at h
  split at h
  · exact h ▸ hv
  · subst h
    intro q hq
    rcases mem_pagesPut hq with h1 | h1
    · subst h1; show Page.encoded_size pg ≤ PAGE_SIZE; omega
    · exact hv q h1

theorem valid_of_write_page_at {st : DbState} {pg : Page} {off : Nat}
    {p : Except DbError Unit × DbState}
    (h : Pager.write_page_at_offset st pg off = p) (hv : pagesValid st) : pagesValid p.2 := by
  unfold Pager.write_page_at_offset at h
  split at h
  · exact h ▸ hv
  · subst h
    intro q hq
    rcases mem_pagesPut hq with h1 | h1
    · subst h1; show Page.encoded_size pg ≤ PAGE_SIZE; omega
    · exact hv q h1

theorem valid_set_root {st : DbState} {off : Nat} (hv : pagesValid st) :
    pagesValid (Pager.set_root st off) := hv

theorem valid_of_rewrite_parent {ro : Nat} :
    ∀ {cs : List (Col × Nat)} {st : DbState} {p : Except DbError Unit × DbState},
    BTree.rewrite_parent st ro cs = p → pagesValid st → pagesValid p.2
  | [], _, _, h, hv => h ▸ hv
  | (c, co) :: rest, st, p, h, hv => by
    unfold BTree.rewrite_parent at h
    split at h
    · exact h ▸ hv
    next pg heq =>
      rcases pg with ⟨par, children⟩ | ⟨par, values⟩ <;>
        simp only [] at h <;>
        (split at h
         · next e st2 heq2 => exact h ▸ valid_of_write_page_at heq2 hv
         · next v st2 heq2 =>
             exact valid_of_rewrite_parent h (valid_of_write_page_at heq2 hv))


theorem valid_of_write_page2 {st st' : DbState} {pg : Page} {r : Except DbError Nat}
    (h : Pager.write_page st pg = (r, st')) (hv : pagesValid st) : pagesValid st' :=
  valid_of_write_page h hv

theorem valid_of_write_page_at2 {st st' : DbState} {pg : Page} {off : Nat}
    {r : Except DbError Unit}
    (h : Pager.write_page_at_offset st pg off = (r, st')) (hv : pagesValid st) :
    pagesValid st' :=
  valid_of_write_page_at h hv

theorem valid_of_rewrite_parent2 {ro : Nat} {cs : List (Col × Nat)} {st st' : DbState}
    {r : Except DbError Unit}
    (h : BTree.rewrite_parent st ro cs = (r, st')) (hv : pagesValid st) : pagesValid st' :=
  valid_of_rewrite_parent h hv

theorem insertLoop_valid :
    ∀ (fuel : Nat) (st : DbState) (key : Col) (value : Row) (off : Nat) (pg : Page)
      (pending : Option (Col × Nat)) (res : Except DbError Unit) (st' : DbState),
      BTree.insertLoop fuel st key value off pg pending = some (res, st') →
      pagesValid st → pagesValid st' := by
  intro fuel
  induction fuel with
  | zero =>
    intro st key value off pg pending res st' h hv
    simp [BTree.insertLoop] at h
  | succ n ih =>
    intro st key value off pg pending res st' h hv
    rcases pg with ⟨parent, children⟩ | ⟨parent, values⟩
    · rcases pending with _ | ⟨pkey, poff⟩
      · -- descend branch
        simp only [BTree.insertLoop] at h
        split at h
        · exact Option.noConfusion h
        · split at h
          · injection h with h2; injection h2 with hr hs; subst hr; subst hs; exact hv
          · exact ih _ _ _ _ _ _ _ _ h hv
      · -- pending promotion at an interior page
        simp only [BTree.insertLoop] at h
        split at h
        · -- within budget: rewrite in place
          split at h
          · next e st1 heq =>
              injection h with h2; injection h2 with hr hs; subst hr; subst hs
              exact valid_of_write_page_at2 heq hv
          · next a st1 heq =>
              injection h with h2; injection h2 with hr hs; subst hr; subst hs
              exact valid_of_write_page_at2 heq hv
        · -- overflow: split the node
          split at h
          · next leftHead rightHead heqL heqR =>
              split at h
              · -- the split page was the root
                split at h
                · next e st1 heq1 =>
                    injection h with h2; injection h2 with hr hs; subst hr; subst hs
                    exact valid_of_rewrite_parent2 heq1 hv
                · next a st1 heq1 =>
                    split at h
                    · next e st2 heq2 =>
                        injection h with h2; injection h2 with hr hs; subst hr; subst hs
                        exact valid_of_write_page_at2 heq2
                          (valid_set_root (valid_of_rewrite_parent2 heq1 hv))
                    · next b st2 heq2 =>
                        split at h
                        · next e st3 heq3 =>
                            injection h with h2; injection h2 with hr hs; subst hr; subst hs
                            exact valid_of_write_page2 heq3
                              (valid_of_write_page_at2 heq2
                                (valid_set_root (valid_of_rewrite_parent2 heq1 hv)))
                        · next c st3 heq3 =>
                            split at h
                            all_goals next d st4 heq4 =>
                              injection h with h2; injection h2 with hr hs
                              subst hr; subst hs
                              exact valid_of_write_page2 heq4
                                (valid_of_write_page2 heq3
                                  (valid_of_write_page_at2 heq2
                                    (valid_set_root (valid_of_rewrite_parent2 heq1 hv))))
              · -- promote into an existing parent
                split at h
                · next e heqP =>
                    injection h with h2; injection h2 with hr hs; subst hr; subst hs
                    exact hv
                · next parentPage heqP =>
                    split at h
                    · next e st1 heq1 =>
                        injection h with h2; injection h2 with hr hs; subst hr; subst hs
                        exact valid_of_write_page2 heq1 hv
                    · next ro st1 heq1 =>
                        split at h
                        · next e st2 heq2 =>
                            injection h with h2; injection h2 with hr hs; subst hr; subst hs
                            exact valid_of_rewrite_parent2 heq2
                              (valid_of_write_page2 heq1 hv)
                        · next a st2 heq2 =>
                            exact ih _ _ _ _ _ _ _ _ h
                              (valid_of_rewrite_parent2 heq2
                                (valid_of_write_page2 heq1 hv))
          all_goals exact Option.noConfusion h
    · -- leaf
      simp only [BTree.insertLoop] at h
      split at h
      · -- oversized entry rejected
        injection h with h2; injection h2 with hr hs; subst hr; subst hs; exact hv
      · split at h
        · -- within budget: rewrite in place
          split at h
          · next e st1 heq =>
              injection h with h2; injection h2 with hr hs; subst hr; subst hs
              exact valid_of_write_page_at2 heq hv
          · next a st1 heq =>
              injection h with h2; injection h2 with hr hs; subst hr; subst hs
              exact valid_of_write_page_at2 heq hv
        · -- overflow: split the leaf
          split at h
          · next leftHead rightHead heqL heqR =>
              split at h
              · -- the leaf was the root
                split at h
                · next e st1 heq1 =>
                    injection h with h2; injection h2 with hr hs; subst hr; subst hs
                    exact valid_of_write_page_at2 heq1 (valid_set_root hv)
                · next a st1 heq1 =>
                    split at h
                    · next e st2 heq2 =>
                        injection h with h2; injection h2 with hr hs; subst hr; subst hs
                        exact valid_of_write_page2 heq2
                          (valid_of_write_page_at2 heq1 (valid_set_root hv))
                    · next b st2 heq2 =>
                        split at h
                        all_goals next c st3 heq3 =>
                          injection h with h2; injection h2 with hr hs
                          subst hr; subst hs
                          exact valid_of_write_page2 heq3
                            (valid_of_write_page2 heq2
                              (valid_of_write_page_at2 heq1 (valid_set_root hv)))
              · -- rewrite left, promote into the parent
                split at h
                · next e st1 heq1 =>
                    injection h with h2; injection h2 with hr hs; subst hr; subst hs
                    exact valid_of_write_page_at2 heq1 hv
                · next a st1 heq1 =>
                    split at h
                    · next e heqP =>
                        injection h with h2; injection h2 with hr hs; subst hr; subst hs
                        exact valid_of_write_page_at2 heq1 hv
                    · next parentPage heqP =>
                        split at h
                        · next e st2 heq2 =>
                            injection h with h2; injection h2 with hr hs; subst hr; subst hs
                            exact valid_of_write_page2 heq2
                              (valid_of_write_page_at2 heq1 hv)
                        · next ro st2 heq2 =>
                            exact ih _ _ _ _ _ _ _ _ h
                              (valid_of_write_page2 heq2
                                (valid_of_write_page_at2 heq1 hv))
          all_goals exact Option.noConfusion h

/-- C3 counterexample.  The claimed equivalence fails: `split_leaf` does
NOT keep both halves within `PAGE_SIZE`.  In Scenario B the first two
inserts leave the root leaf `[(keyB0, rowB0), (keyB2, rowB2)]` (sizes 20
and 100); inserting the maximal-size entry `(keyB1, rowB1)` (4089 bytes)
between them produces the list handed to `split_leaf`, whose left output
has page size 4116 > 4096 — the shifting loop only re-checks `right`.  The
third insert consequently fails with `Encoding` from the page serialiser
instead of completing. -/
theorem c3_counterexample :
    insertAll 20 st0 [(keyB0, rowB0), (keyB2, rowB2)] = some scnB2 ∧
    pagesGet scnB2.pages HEADER_SIZE = some (.leaf 0 [(keyB0, rowB0), (keyB2, rowB2)]) ∧
    scnBList = [(keyB0, rowB0), (keyB1, rowB1), (keyB2, rowB2)] ∧
    keyB1.size + rowB1.size = MAX_KEY_VALUE_SIZE ∧
    Page.leaf_size scnBList = 4216 ∧
    split_leaf scnBList = ([(keyB0, rowB0), (keyB1, rowB1)], [(keyB2, rowB2)]) ∧
    Page.leaf_size (split_leaf scnBList).1 = 4116 ∧
    ¬ Page.leaf_size (split_leaf scnBList).1 ≤ PAGE_SIZE ∧
    (BTree.insert 20 scnB2 keyB1 rowB1).map Prod.fst = some (.error .encoding) :=
  ⟨rfl, rfl, rfl, rfl, rfl, rfl, rfl, by decide, rfl⟩

/-- C3 (amended).  After every successful insert every page stored in the
file fits the budget `encoded_size ≤ PAGE_SIZE`, because the page
serialiser rejects larger pages; but this is NOT equivalent to the split
functions keeping both halves within budget — an oversized split half makes
the insert fail with `Encoding` (see the counterexample), it is never
written. -/
theorem c3_pages_within_budget_after_insert
    (fuel : Nat) (st : DbState) (key : Col) (value : Row) (st' : DbState)
    (hv : pagesValid st)
    (h : BTree.insert fuel st key value = some (.ok (), st')) :
    pagesValid st' := by
  simp only [BTree.insert] at h
  split at h
  · injection h with h2
    exact absurd (congrArg Prod.fst h2) (by simp)
  · exact insertLoop_valid _ _ _ _ _ _ _ _ _ h hv

/-- C3 witness: a concrete successful insert on the fresh tree, with the
page-budget invariant evaluated on both sides. -/
theorem c3_witness : pagesValid scnC :=
  c3_pages_within_budget_after_insert 5 st0 (.int 1) ⟨[.int 2]⟩ scnC (by decide) rfl

/-! ### Write-order lemmas (C4) -/

/-- Successful `write_page` appends the page at the cursor, advances the
cursor by one page, and logs one append event. -/
theorem write_page_ok {st st' : DbState} {pg : Page} {r : Nat}
    (h : Pager.write_page st pg = (.ok r, st')) :
    r = st.cursor ∧
      st' = { st with
              pages := pagesPut st.pages st.cursor pg
              cursor := st.cursor + PAGE_SIZE
              log := st.log ++ [.append st.cursor] } := by
  unfold Pager.write_page at h
  split at h
  · exact absurd (congrArg Prod.fst h) (by simp)
  · injection h with h1 h2
    exact ⟨(Except.ok.inj h1).symm, h2.symm⟩

/-- Successful `write_page_at_offset` rewrites one offset and logs one
positioned-write event; root, cursor and schema are untouched. -/
theorem write_page_at_ok {st st' : DbState} {pg : Page} {off : Nat} {r : Unit}
    (h : Pager.write_page_at_offset st pg off = (.ok r, st')) :
    st' = { st with
            pages := pagesPut st.pages off pg
            log := st.log ++ [.writeAt off] } := by
  unfold Pager.write_page_at_offset at h
  split at h
  · exact absurd (congrArg Prod.fst h) (by simp)
  · injection h with h1 h2
    exact h2.symm

/-- Successful `rewrite_parent` issues only positioned page rewrites: the
log grows by some list of `writeAt` events and root, cursor and schema are
untouched. -/
theorem rewrite_parent_ok {ro : Nat} :
    ∀ {cs : List (Col × Nat)} {st st' : DbState} {r : Unit},
    BTree.rewrite_parent st ro cs = (.ok r, st') →
    ∃ rw, (∀ e ∈ rw, ∃ o, e = Ev.writeAt o) ∧
      st'.log = st.log ++ rw ∧ st'.cursor = st.cursor ∧ st'.root = st.root ∧
      st'.schema = st.schema
  | [], st, st', r, h => by
    injection h with h1 h2
    exact h2 ▸ ⟨[], by simp, by simp, rfl, rfl, rfl⟩
  | (c, co) :: rest, st, st', r, h => by
    unfold BTree.rewrite_parent at h
    split at h
    · exact absurd (congrArg Prod.fst h) (by simp)
    next pg heq =>
      rcases pg with ⟨par, children⟩ | ⟨par, values⟩ <;>
        simp only [] at h <;>
        (split at h
         · exact absurd (congrArg Prod.fst h) (by simp)
         · next v st2 heq2 =>
             obtain ⟨rw, hrw, hlog, hcur, hroot, hschema⟩ := rewrite_parent_ok h
             obtain rfl := write_page_at_ok heq2
             refine ⟨Ev.writeAt co :: rw, ?_, ?_, by simpa using hcur, hroot, hschema⟩
             · intro e he
               rcases List.mem_cons.mp he with rfl | he2
               · exact ⟨co, rfl⟩
               · exact hrw e he2
             · simpa [List.append_assoc] using hlog)

/-- C4 (amended).  In every root-promoting split that completes, the
writes happen in the order: header root-pointer update FIRST, then the left
page rewritten at its existing offset, then the new root appended, then the
right page appended — the claim's order (b),(c),(d),(e) with the header
last does not hold; the header update leads.  For an interior split the
per-child parent-pointer rewrites precede all four.  The two conjuncts
cover a root leaf and a root interior page. -/
theorem c4_root_promotion_write_order :
    (∀ (n : Nat) (st : DbState) (key : Col) (value : Row) (offset : Nat)
       (values : List (Col × Row)) (st' : DbState),
       PAGE_SIZE < Page.leaf_size (insert_key_value values (key, value)) →
       BTree.insertLoop (n + 1) st key value offset (.leaf 0 values) none =
         some (.ok (), st') →
       st'.log = st.log ++
         [.setRoot st.cursor, .writeAt offset,
          .append st.cursor, .append (st.cursor + PAGE_SIZE)]) ∧
    (∀ (n : Nat) (st : DbState) (key : Col) (value : Row) (offset : Nat)
       (children : List (Col × Nat)) (pkey : Col) (poff : Nat) (st' : DbState),
       PAGE_SIZE < Page.node_size (insert_key_value children (pkey, poff)) →
       BTree.insertLoop (n + 1) st key value offset (.node 0 children)
         (some (pkey, poff)) = some (.ok (), st') →
       ∃ rw, (∀ e ∈ rw, ∃ o, e = Ev.writeAt o) ∧
         st'.log = st.log ++ rw ++
           [.setRoot st.cursor, .writeAt offset,
            .append st.cursor, .append (st.cursor + PAGE_SIZE)]) := by
  constructor
  · intro n st key value offset values st' hov h
    simp only [BTree.insertLoop] at h
    split at h
    · exact absurd (congrArg Prod.fst (Option.some.inj h)) (by simp)
    · split at h
      · next hle => exact absurd hle (by omega)
      · split at h
        · next leftHead rightHead heqL heqR =>
            split at h
            · split at h
              · exact absurd (congrArg Prod.fst (Option.some.inj h)) (by simp)
              · next a st2 heq1 =>
                  split at h
                  · exact absurd (congrArg Prod.fst (Option.some.inj h)) (by simp)
                  · next b st3 heq2 =>
                      split at h
                      · exact absurd (congrArg Prod.fst (Option.some.inj h)) (by simp)
                      · next c st4 heq3 =>
                          obtain rfl :=
                            congrArg Prod.snd (Option.some.inj h)
                          obtain rfl := write_page_at_ok heq1
                          obtain ⟨rfl, rfl⟩ := write_page_ok heq2
                          obtain ⟨rfl, rfl⟩ := write_page_ok heq3
                          simp [Pager.set_root, Pager.get_offset, List.append_assoc]
            · next hne => exact absurd trivial hne
        all_goals exact Option.noConfusion h
  · intro n st key value offset children pkey poff st' hov h
    simp only [BTree.insertLoop] at h
    split at h
    · next hle => exact absurd hle (by omega)
    · split at h
      · next leftHead rightHead heqL heqR =>
          split at h
          · split at h
            · exact absurd (congrArg Prod.fst (Option.some.inj h)) (by simp)
            · next a st1 heq0 =>
                split at h
                · exact absurd (congrArg Prod.fst (Option.some.inj h)) (by simp)
                · next b st2 heq1 =>
                    split at h
                    · exact absurd (congrArg Prod.fst (Option.some.inj h)) (by simp)
                    · next c st3 heq2 =>
                        split at h
                        · exact absurd (congrArg Prod.fst (Option.some.inj h)) (by simp)
                        · next d st4 heq3 =>
                            obtain rfl := congrArg Prod.snd (Option.some.inj h)
                            obtain ⟨rw, hrw, hlog, hcur, hroot, hschema⟩ :=
                              rewrite_parent_ok heq0
                            obtain rfl := write_page_at_ok heq1
                            obtain ⟨rfl, rfl⟩ := write_page_ok heq2
                            obtain ⟨rfl, rfl⟩ := write_page_ok heq3
                            refine ⟨rw, hrw, ?_⟩
                            simp [Pager.set_root, Pager.get_offset, hlog, hcur,
                              List.append_assoc]
          · next hne => exact absurd trivial hne
      all_goals exact Option.noConfusion h

/-- C4 witness: both conjuncts instantiated — the Scenario A second
insert's leaf promotion and the Scenario N interior promotion. -/
theorem c4_witness :
    scnA2loop.log = scnA1.log ++
      [.setRoot 20480, .writeAt 16384, .append 20480, .append 24576] ∧
    (∃ rw, (∀ e ∈ rw, ∃ o, e = Ev.writeAt o) ∧
      scnNloop.log = stN.log ++ rw ++
        [.setRoot 32768, .writeAt 16384, .append 32768, .append 36864]) :=
  ⟨c4_root_promotion_write_order.1 19 scnA1 (keyA 1) (rowA 1) 16384
      [(keyA 0, rowA 0)] scnA2loop (by decide) rfl,
   c4_root_promotion_write_order.2 4 stN (keyA 0) (rowA 0) 16384
      [(keyA 0, 16384), (keyA 1, 24576)] (keyA 2) 28672 scnNloop (by decide) rfl⟩

/-- If the search descent completes cleanly, the insert descent reaches
the same leaf without writing, and an oversized entry is rejected there
with the pre-call state returned untouched. -/
theorem insertLoop_maxsize :
    ∀ (fuel : Nat) (st : DbState) (key : Col) (value : Row) (off : Nat) (pg : Page)
      (res : Option Row),
      MAX_KEY_VALUE_SIZE < key.size + value.size →
      BTree.searchLoop fuel st key pg = some (.ok res) →
      BTree.insertLoop fuel st key value off pg none =
        some (.error (.maxSize (key.size + value.size) MAX_KEY_VALUE_SIZE), st) := by
  intro fuel
  induction fuel with
  | zero => intro st key value off pg res hgt hs; simp [BTree.searchLoop] at hs
  | succ n ih =>
    intro st key value off pg res hgt hs
    rcases pg with ⟨parent, children⟩ | ⟨parent, values⟩
    · simp only [BTree.searchLoop] at hs
      simp only [BTree.insertLoop]
      cases hc : children.get? (get_index children key) with
      | none => rw [hc] at hs; exact Option.noConfusion hs
      | some child =>
        rw [hc] at hs
        simp only [] at hs
        cases hg : Pager.get_page st child.2 with
        | error e =>
          rw [hg] at hs
          simp only [] at hs
          exact absurd hs (by simp)
        | ok page2 =>
          rw [hg] at hs
          simp only [] at hs
          simp only []
          rw [hg]
          exact ih st key value child.2 page2 res hgt hs
    · simp only [BTree.insertLoop]
      rw [if_pos hgt]

/-- C5.  An entry with `size(key) + size(row) > MAX_KEY_VALUE_SIZE` is
rejected by `BTree::insert` with exactly `MaxSize(received, limit)`,
`received = size(key) + size(row)` and `limit = MAX_KEY_VALUE_SIZE = 4089`,
and the file state (root pointer, cursor, pages, schema, and even the write
log) is returned unchanged.  The hypothesis that a `search` for the same
key completes cleanly pins down that the descent reaches a leaf, which is
where the source checks the guard — the descent itself issues no writes. -/
theorem c5_size_guard
    (fuel : Nat) (st : DbState) (key : Col) (value : Row) (res : Option Row)
    (hgt : MAX_KEY_VALUE_SIZE < key.size + value.size)
    (hs : BTree.search fuel st key = some (.ok res)) :
    BTree.insert fuel st key value =
      some (.error (.maxSize (key.size + value.size) MAX_KEY_VALUE_SIZE), st) := by
  simp only [BTree.search] at hs
  simp only [BTree.insert]
  cases hg : Pager.get_page st (Pager.get_root st) with
  | error e =>
    rw [hg] at hs
    simp only [] at hs
    exact absurd hs (by simp)
  | ok page =>
    rw [hg] at hs
    simp only [] at hs
    exact insertLoop_maxsize fuel st key value (Pager.get_root st) page res hgt hs

/-- C5 witness: a 4096-byte entry (text key of capacity 4090, empty row) on
the fresh tree is rejected with `MaxSize(4096, 4089)` and the state is
untouched. -/
theorem c5_witness :
    BTree.insert 5 st0 (.varchar [] 4090) ⟨[]⟩ =
      some (.error (.maxSize 4096 4089), st0) :=
  c5_size_guard 5 st0 (.varchar [] 4090) ⟨[]⟩ none (by decide) rfl

/-! ### Delete frame lemmas (C9) -/

/-- Looking up any other offset after `pagesPut` is unchanged. -/
theorem pagesGet_pagesPut_ne {ps : List (Nat × Page)} {off o : Nat} {pg : Page}
    (h : o ≠ off) : pagesGet (pagesPut ps off pg) o = pagesGet ps o := by
  induction ps with
  | nil =>
    simp only [pagesPut, pagesGet]
    rw [if_neg (fun hc => h hc.symm)]
  | cons q rest ih =>
    rcases q with ⟨qo, qp⟩
    simp only [pagesPut]
    by_cases hq : qo = off
    · rw [if_pos hq]
      simp only [pagesGet]
      rw [if_neg (fun hc => h hc.symm), if_neg (fun hc : qo = o => h (hq ▸ hc).symm)]
    · rw [if_neg hq]
      simp only [pagesGet]
      by_cases hqo : qo = o
      · rw [if_pos hqo, if_pos hqo]
      · rw [if_neg hqo, if_neg hqo]
        exact ih

/-- Storing at an offset that is already bound keeps the number of
bindings (the file length does not grow). -/
theorem pagesPut_length_of_get {ps : List (Nat × Page)} {off : Nat} {q pg : Page}
    (h : pagesGet ps off = some q) : (pagesPut ps off pg).length = ps.length := by
  induction ps with
  | nil => simp [pagesGet] at h
  | cons p rest ih =>
    simp only [pagesGet] at h
    by_cases hp : p.1 = off
    · simp [pagesPut, hp]
    · rw [if_neg hp] at h
      simp [pagesPut, hp, ih h]

/-- `get_page` succeeds exactly on stored offsets. -/
theorem get_page_ok {st : DbState} {o : Nat} {pg : Page}
    (h : Pager.get_page st o = .ok pg) : pagesGet st.pages o = some pg := by
  unfold Pager.get_page at h
  split at h
  · next p hp =>
    rw [hp]
    exact congrArg some (Except.ok.inj h)
  · exact Except.noConfusion h

/-- The delete loop modifies at most the one leaf it reaches. -/
theorem deleteLoop_frame :
    ∀ (fuel : Nat) (st : DbState) (key : Col) (off : Nat) (pg : Page)
      (r : Option Row) (st' : DbState),
      pagesGet st.pages off = some pg →
      BTree.deleteLoop fuel st key off pg = some (.ok r, st') →
      st'.root = st.root ∧ st'.cursor = st.cursor ∧ st'.schema = st.schema ∧
      ((r = none ∧ st' = st) ∨
        (∃ offL parent values idx kv,
          pagesGet st.pages offL = some (.leaf parent values) ∧
          values.get? idx = some kv ∧ r = some kv.2 ∧
          st'.pages = pagesPut st.pages offL (.leaf parent (values.eraseIdx idx)) ∧
          st'.log = st.log ++ [.writeAt offL] ∧
          st'.pages.length = st.pages.length ∧
          ∀ o, o ≠ offL → pagesGet st'.pages o = pagesGet st.pages o)) := by
  intro fuel
  induction fuel with
  | zero => intro st key off pg r st' hpg h; simp [BTree.deleteLoop] at h
  | succ n ih =>
    intro st key off pg r st' hpg h
    rcases pg with ⟨parent, children⟩ | ⟨parent, values⟩
    · -- interior: descend
      simp only [BTree.deleteLoop] at h
      cases hc : children.get? (get_index children key) with
      | none => rw [hc] at h; exact Option.noConfusion h
      | some child =>
        rw [hc] at h
        simp only [] at h
        cases hg : Pager.get_page st child.2 with
        | error e =>
          rw [hg] at h
          simp only [] at h
          exact absurd (congrArg Prod.fst (Option.some.inj h)) (by simp)
        | ok page2 =>
          rw [hg] at h
          simp only [] at h
          exact ih st key child.2 page2 r st' (get_page_ok hg) h
    · -- leaf
      simp only [BTree.deleteLoop] at h
      cases hb : binarySearchBy values (fun kv => Col.cmp kv.1 key) with
      | error i =>
        rw [hb] at h
        simp only [] at h
        obtain ⟨h1, h2⟩ := Prod.mk.injEq .. ▸ Option.some.inj h
        exact h2 ▸ ⟨rfl, rfl, rfl, Or.inl ⟨(Except.ok.inj h1).symm, rfl⟩⟩
      | ok idx =>
        rw [hb] at h
        simp only [] at h
        cases hv : values.get? idx with
        | none => rw [hv] at h; exact Option.noConfusion h
        | some kv =>
          rw [hv] at h
          simp only [] at h
          split at h
          · exact absurd (congrArg Prod.fst (Option.some.inj h)) (by simp)
          · next a st2 heq =>
            obtain rfl := write_page_at_ok heq
            obtain ⟨h1, h2⟩ := Prod.mk.injEq .. ▸ Option.some.inj h
            subst h2
            refine ⟨rfl, rfl, rfl, Or.inr ⟨off, parent, values, idx, kv, hpg,
              hv, (Except.ok.inj h1).symm, rfl, rfl,
              pagesPut_length_of_get hpg, fun o ho => pagesGet_pagesPut_ne ho⟩⟩

/-- C9.  `BTree::delete` modifies at most the single leaf reached by the
descent: on success the root pointer, the cursor, the schema region and the
number of stored pages are unchanged; when the key is absent the state is
returned identical (nothing written, not even a log entry); when it is
present, the returned row is the erased entry's row, the reached leaf is
rewritten in place with that entry removed, exactly one positioned write is
logged, and every other offset reads back unchanged. -/
theorem c9_delete_frame
    (fuel : Nat) (st : DbState) (key : Col) (r : Option Row) (st' : DbState)
    (h : BTree.delete fuel st key = some (.ok r, st')) :
    st'.root = st.root ∧ st'.cursor = st.cursor ∧ st'.schema = st.schema ∧
    ((r = none ∧ st' = st) ∨
      (∃ offL parent values idx kv,
        pagesGet st.pages offL = some (.leaf parent values) ∧
        values.get? idx = some kv ∧ r = some kv.2 ∧
        st'.pages = pagesPut st.pages offL (.leaf parent (values.eraseIdx idx)) ∧
        st'.log = st.log ++ [.writeAt offL] ∧
        st'.pages.length = st.pages.length ∧
        ∀ o, o ≠ offL → pagesGet st'.pages o = pagesGet st.pages o)) := by
  simp only [BTree.delete] at h
  cases hg : Pager.get_page st (Pager.get_root st) with
  | error e =>
    rw [hg] at h
    simp only [] at h
    exact absurd (congrArg Prod.fst (Option.some.inj h)) (by simp)
  | ok page =>
    rw [hg] at h
    simp only [] at h
    exact deleteLoop_frame fuel st key (Pager.get_root st) page r st' (get_page_ok hg) h

/-- C9 witness: deleting the key `1` from the two-entry Scenario D leaf. -/
theorem c9_witness :
    (afterDelete 20 scnD2 (.int 1)).root = scnD2.root ∧
    (afterDelete 20 scnD2 (.int 1)).cursor = scnD2.cursor ∧
    (afterDelete 20 scnD2 (.int 1)).schema = scnD2.schema ∧
    ((some (Row.mk [.int 10]) = none ∧ afterDelete 20 scnD2 (.int 1) = scnD2) ∨
      (∃ offL parent values idx kv,
        pagesGet scnD2.pages offL = some (.leaf parent values) ∧
        values.get? idx = some kv ∧ some (Row.mk [.int 10]) = some kv.2 ∧
        (afterDelete 20 scnD2 (.int 1)).pages =
          pagesPut scnD2.pages offL (.leaf parent (values.eraseIdx idx)) ∧
        (afterDelete 20 scnD2 (.int 1)).log = scnD2.log ++ [.writeAt offL] ∧
        (afterDelete 20 scnD2 (.int 1)).pages.length = scnD2.pages.length ∧
        ∀ o, o ≠ offL →
          pagesGet (afterDelete 20 scnD2 (.int 1)).pages o = pagesGet scnD2.pages o)) :=
  c9_delete_frame 20 scnD2 (.int 1) (some (Row.mk [.int 10]))
    (afterDelete 20 scnD2 (.int 1)) rfl

/-- A byte string compares equal to itself. -/
theorem bytesCompare_self : ∀ s : Bytes, bytesCompare s s = .eq
  | [] => rfl
  | _ :: rest => by
    simp only [bytesCompare]
    rw [Nat.compare_eq_eq.mpr rfl]
    exact bytesCompare_self rest

/-- C8 (amended).  The derived key ordering compares `Varchar` values by
tag, then payload bytes, then capacity: on equal payloads the comparison is
exactly the comparison of the capacities, so two text values are equal as
keys if and only if their capacities coincide — the capacity is NOT
irrelevant, and a key inserted as `Text(s, c1)` is found by a search with
`Text(s, c2)` only when `c1 = c2`. -/
theorem c8_varchar_cmp_cap (s : Bytes) (c1 c2 : Nat) :
    Col.cmp (.varchar s c1) (.varchar s c2) = compare c1 c2 ∧
    (Col.cmp (.varchar s c1) (.varchar s c2) = .eq ↔ c1 = c2) := by
  have h : Col.cmp (.varchar s c1) (.varchar s c2) = compare c1 c2 := by
    simp only [Col.cmp]
    rw [bytesCompare_self]
  exact ⟨h, by rw [h]; exact Nat.compare_eq_eq⟩

/-! ### Value-codec round trip (C6) -/

/-- `u16` big-endian round trip. -/
theorem beNat_u16 (n : Nat) (h : n < 2 ^ 16) : beNat (u16ToBe n) = n := by
  simp only [u16ToBe, beNat, List.foldl]
  omega

/-- `i32` two's-complement big-endian round trip. -/
theorem i32_roundtrip (v : Int) (h1 : -(2 ^ 31) ≤ v) (h2 : v < 2 ^ 31) :
    i32FromBe (i32ToBe v) = v := by
  have h32 : (2 : Int) ^ 32 = 4294967296 := by norm_num
  have he : v % (4294967296 : Int) = v ∨ v % (4294967296 : Int) = v + 4294967296 := by
    rcases le_or_lt 0 v with hv | hv
    · exact Or.inl (by omega)
    · exact Or.inr (by omega)
  rcases he with he | he <;>
    simp only [i32ToBe, i32FromBe, u32ToBe, beNat, List.foldl, h32, he] <;>
      (split <;> omega)

/-- `i64` two's-complement big-endian round trip. -/
theorem i64_roundtrip (v : Int) (h1 : -(2 ^ 63) ≤ v) (h2 : v < 2 ^ 63) :
    i64FromBe (i64ToBe v) = v := by
  have h64 : (2 : Int) ^ 64 = 18446744073709551616 := by norm_num
  have he : v % (18446744073709551616 : Int) = v ∨
      v % (18446744073709551616 : Int) = v + 18446744073709551616 := by
    rcases le_or_lt 0 v with hv | hv
    · exact Or.inl (by omega)
    · exact Or.inr (by omega)
  rcases he with he | he <;>
    simp only [i64ToBe, i64FromBe, u64ToBe, beNat, List.foldl, h64, he] <;>
      (split <;> omega)

/-- Writing at offset 0 overwrites a prefix. -/
theorem writeSlice_zero (xs src : Bytes) (h : src.length ≤ xs.length) :
    writeSlice xs 0 src = some (src ++ xs.drop src.length) := by
  unfold writeSlice
  rw [if_pos (by omega)]
  simp

/-- Writing past a head byte leaves it in place. -/
theorem writeSlice_succ (x : Nat) (xs : Bytes) (off : Nat) (src : Bytes) :
    writeSlice (x :: xs) (off + 1) src = (writeSlice xs off src).map (x :: ·) := by
  unfold writeSlice
  by_cases h : off + src.length ≤ xs.length
  · rw [if_pos (by simp; omega), if_pos h]
    have harith : off + 1 + src.length = off + src.length + 1 := by omega
    simp [harith, List.take_succ_cons, List.drop_succ_cons]
  · rw [if_neg (by simp; omega), if_neg h]
    simp

/-- Reading past a head byte skips it. -/
theorem readSlice_succ (x : Nat) (xs : Bytes) (off len : Nat) :
    readSlice (x :: xs) (off + 1) len = readSlice xs off len := by
  unfold readSlice
  by_cases h : off + len ≤ xs.length
  · rw [if_pos (by simp; omega), if_pos h]
    simp [List.drop_succ_cons]
  · rw [if_neg (by simp; omega), if_neg h]

/-- Reading a prefix of its own length returns it. -/
theorem readSlice_zero_prefix (src rest : Bytes) :
    readSlice (src ++ rest) 0 src.length = some src := by
  unfold readSlice
  rw [if_pos (by simp)]
  simp [List.take_left]

/-- `writeSlice` at offset 1. -/
theorem writeSlice_one (x : Nat) (xs src : Bytes) :
    writeSlice (x :: xs) 1 src = (writeSlice xs 0 src).map (x :: ·) :=
  writeSlice_succ x xs 0 src

/-- `writeSlice` at offset 3. -/
theorem writeSlice_three (x y z : Nat) (xs src : Bytes) :
    writeSlice (x :: y :: z :: xs) 3 src =
      (writeSlice xs 0 src).map (fun t => x :: y :: z :: t) := by
  rw [show writeSlice (x :: y :: z :: xs) 3 src =
        (writeSlice (y :: z :: xs) 2 src).map (x :: ·) from writeSlice_succ x _ 2 src,
      show writeSlice (y :: z :: xs) 2 src =
        (writeSlice (z :: xs) 1 src).map (y :: ·) from writeSlice_succ y _ 1 src,
      writeSlice_one]
  cases writeSlice xs 0 src <;> rfl

/-- `writeSlice` at offset 5. -/
theorem writeSlice_five (x y z w u : Nat) (xs src : Bytes) :
    writeSlice (x :: y :: z :: w :: u :: xs) 5 src =
      (writeSlice xs 0 src).map (fun t => x :: y :: z :: w :: u :: t) := by
  rw [show writeSlice (x :: y :: z :: w :: u :: xs) 5 src =
        (writeSlice (y :: z :: w :: u :: xs) 4 src).map (x :: ·) from
        writeSlice_succ x _ 4 src,
      show writeSlice (y :: z :: w :: u :: xs) 4 src =
        (writeSlice (z :: w :: u :: xs) 3 src).map (y :: ·) from
        writeSlice_succ y _ 3 src,
      writeSlice_three]
  cases writeSlice xs 0 src <;> rfl

/-- `readSlice` at offset 1. -/
theorem readSlice_one (x : Nat) (xs : Bytes) (len : Nat) :
    readSlice (x :: xs) 1 len = readSlice xs 0 len :=
  readSlice_succ x xs 0 len

/-- `readSlice` at offset 2. -/
theorem readSlice_two (x y : Nat) (xs : Bytes) (len : Nat) :
    readSlice (x :: y :: xs) 2 len = readSlice xs 0 len := by
  rw [show readSlice (x :: y :: xs) 2 len = readSlice (y :: xs) 1 len from
        readSlice_succ x _ 1 len,
      readSlice_one]

/-- `readSlice` at offset 4. -/
theorem readSlice_four (x y z w : Nat) (xs : Bytes) (len : Nat) :
    readSlice (x :: y :: z :: w :: xs) 4 len = readSlice xs 0 len := by
  rw [show readSlice (x :: y :: z :: w :: xs) 4 len =
        readSlice (y :: z :: w :: xs) 3 len from readSlice_succ x _ 3 len,
      show readSlice (y :: z :: w :: xs) 3 len =
        readSlice (z :: w :: xs) 2 len from readSlice_succ y _ 2 len,
      readSlice_two]

/-- Reading at offset 0 takes a prefix. -/
theorem readSlice_zero (xs : Bytes) (len : Nat) (h : len ≤ xs.length) :
    readSlice xs 0 len = some (xs.take len) := by
  unfold readSlice
  rw [if_pos (by omega)]
  simp

/-- C6.  For every well-typed value (an `i32`, an `i64`, or a text value
whose byte length is within its `u16` capacity), writing into any buffer at
least `size(v)` bytes long and reading the result back yields the value
again, and both the byte count reported by `write` and the byte count
reported by `read` equal `size(v)` — for text, `1 + 2 + 2 + cap`,
independent of the actual string length. -/
theorem c6_col_codec_roundtrip :
    ∀ (c : Col) (buf0 : Bytes), ColWF c → c.size ≤ buf0.length →
    ∃ buf, Col.write c buf0 = some (buf, c.size) ∧
      Col.read buf = some (.ok (c, c.size)) := by
  intro c buf0 hwf hlen
  rcases c with v | v | ⟨s, cap⟩
  · -- Int
    obtain ⟨h1, h2⟩ := hwf
    have hlen5 : 5 ≤ buf0.length := by
      simpa [Col.size, COL_TYPE_SIZE, INT_SIZE] using hlen
    have h4 : (i32ToBe v).length = 4 := by simp [i32ToBe, u32ToBe]
    refine ⟨1 :: (i32ToBe v ++ buf0.drop 5), ?_, ?_⟩
    · simp only [Col.write, Col.get_type]
      rw [writeSlice_zero buf0 [1] (by simp; omega)]
      simp only [List.length_cons, List.length_nil, List.singleton_append,
        COL_TYPE_SIZE, INT_SIZE]
      rw [writeSlice_one, writeSlice_zero _ _ (by rw [h4]; simp; omega)]
      simp [h4, List.drop_drop, Col.size, COL_TYPE_SIZE, INT_SIZE]
    · simp only [Col.read, COL_TYPE_SIZE, INT_SIZE]
      rw [if_pos trivial]
      rw [readSlice_one]
      rw [show (4 : Nat) = (i32ToBe v).length from h4.symm, readSlice_zero_prefix]
      simp [i32_roundtrip v h1 h2, h4, Col.size, COL_TYPE_SIZE, INT_SIZE]
  · -- BigInt
    obtain ⟨h1, h2⟩ := hwf
    have hlen9 : 9 ≤ buf0.length := by
      simpa [Col.size, COL_TYPE_SIZE, BIGINT_SIZE] using hlen
    have h8 : (i64ToBe v).length = 8 := by simp [i64ToBe, u64ToBe]
    refine ⟨2 :: (i64ToBe v ++ buf0.drop 9), ?_, ?_⟩
    · simp only [Col.write, Col.get_type]
      rw [writeSlice_zero buf0 [2] (by simp; omega)]
      simp only [List.length_cons, List.length_nil, List.singleton_append,
        COL_TYPE_SIZE, BIGINT_SIZE]
      rw [writeSlice_one, writeSlice_zero _ _ (by rw [h8]; simp; omega)]
      simp [h8, List.drop_drop, Col.size, COL_TYPE_SIZE, BIGINT_SIZE]
    · simp only [Col.read, COL_TYPE_SIZE, BIGINT_SIZE]
      rw [if_neg (by decide), if_pos trivial]
      rw [readSlice_one]
      rw [show (8 : Nat) = (i64ToBe v).length from h8.symm, readSlice_zero_prefix]
      simp [i64_roundtrip v h1 h2, h8, Col.size, COL_TYPE_SIZE, BIGINT_SIZE]
  · -- Varchar
    obtain ⟨hsl, hcap, hbytes⟩ := hwf
    have hlenv : 5 + cap ≤ buf0.length := by
      simpa [Col.size, COL_TYPE_SIZE, VARCHAR_LEN_SIZE] using hlen
    obtain ⟨c1, c2, hcb⟩ : ∃ a b, u16ToBe cap = [a, b] := ⟨_, _, rfl⟩
    obtain ⟨l1, l2, hlb⟩ : ∃ a b, u16ToBe s.length = [a, b] := ⟨_, _, rfl⟩
    have hbeC : beNat [c1, c2] = cap := hcb ▸ beNat_u16 cap hcap
    have hbeL : beNat [l1, l2] = s.length := hlb ▸ beNat_u16 s.length (by omega)
    refine ⟨3 :: c1 :: c2 :: l1 :: l2 :: (s ++ buf0.drop (5 + s.length)), ?_, ?_⟩
    · simp only [Col.write, Col.get_type]
      rw [show (COL_TYPE_SIZE : Nat) = 1 from rfl,
        show (VARCHAR_LEN_SIZE : Nat) = 2 from rfl]
      rw [writeSlice_zero buf0 [3] (by simp; omega)]
      simp only [List.length_cons, List.length_nil, List.singleton_append,
        Nat.reduceAdd]
      rw [writeSlice_one, hcb, writeSlice_zero _ _ (by simp; omega)]
      simp only [Option.map_some', List.cons_append, List.nil_append,
        List.length_cons, List.length_nil, List.drop_drop, Nat.reduceAdd]
      rw [hlb, writeSlice_three, writeSlice_zero _ _ (by simp; omega)]
      simp only [Option.map_some', List.cons_append, List.nil_append,
        List.length_cons, List.length_nil, List.drop_drop, Nat.reduceAdd,
        Nat.reduceMul]
      rw [writeSlice_five, writeSlice_zero _ _ (by simp; omega)]
      simp only [Option.map_some', List.drop_drop]
      have harith : s.length + 5 = 5 + s.length := by omega
      simp [Col.size, COL_TYPE_SIZE, VARCHAR_LEN_SIZE, harith]
    · simp only [Col.read]
      rw [if_neg (by decide), if_neg (by decide), if_pos trivial]
      rw [show (COL_TYPE_SIZE : Nat) = 1 from rfl]
      simp only [List.drop_succ_cons, List.drop_zero]
      simp only [Col.parse_varchar]
      rw [show (VARCHAR_LEN_SIZE : Nat) = 2 from rfl]
      rw [readSlice_zero _ _ (by simp)]
      simp only [List.take_succ_cons, List.take_zero]
      simp only [hbeC]
      rw [readSlice_two, readSlice_zero _ _ (by simp)]
      simp only [List.take_succ_cons, List.take_zero]
      simp only [hbeL]
      rw [show (2 * 2 : Nat) = 4 from rfl, readSlice_four,
        show readSlice (s ++ buf0.drop (5 + s.length)) 0 s.length = some s from
          readSlice_zero_prefix s _]
      simp [Col.size, COL_TYPE_SIZE, VARCHAR_LEN_SIZE]
      omega

/-- C6 witness: the text value of bytes `[104, 105]` with capacity 5 in a
10-byte buffer. -/
theorem c6_witness :
    ∃ buf, Col.write (Col.varchar [104, 105] 5) (List.replicate 10 0) = some (buf, 10) ∧
      Col.read buf = some (.ok (Col.varchar [104, 105] 5, 10)) :=
  c6_col_codec_roundtrip (Col.varchar [104, 105] 5) (List.replicate 10 0)
    ⟨by decide, by decide, by decide⟩ (by decide)

/-- C7 (amended).  `Col::read` returns the `Encoding` error whenever the
leading byte of a nonempty buffer is not one of the tags 1, 2, 3; but it
NEVER returns the `EOF` error: on an empty buffer, or a buffer shorter than
the bytes the decoder dereferences, it fails with an out-of-bounds slice
panic (modelled `none`) instead. -/
theorem c7_read_never_eof :
    (∀ (b : Nat) (rest : Bytes), b ≠ 1 → b ≠ 2 → b ≠ 3 →
      Col.read (b :: rest) = some (.error .encoding)) ∧
    (∀ (buffer : Bytes) (r : Except DbError (Col × Nat)),
      Col.read buffer = some r → r ≠ .error .eof) ∧
    Col.read [] = none ∧
    (∀ rest : Bytes, rest.length < 4 → Col.read (1 :: rest) = none) ∧
    (∀ rest : Bytes, rest.length < 8 → Col.read (2 :: rest) = none) ∧
    (∀ rest : Bytes, rest.length < 2 → Col.read (3 :: rest) = none) := by
  refine ⟨?_, ?_, rfl, ?_, ?_, ?_⟩
  · intro b rest h1 h2 h3
    simp only [Col.read]
    rw [if_neg h1, if_neg h2, if_neg h3]
  · intro buffer r h
    cases buffer with
    | nil => simp [Col.read] at h
    | cons b rest =>
      simp only [Col.read] at h
      by_cases hb1 : b = 1
      · rw [if_pos hb1] at h
        cases hr : readSlice (b :: rest) COL_TYPE_SIZE INT_SIZE with
        | none => rw [hr] at h; exact Option.noConfusion h
        | some bs =>
          rw [hr] at h
          obtain rfl := Option.some.inj h
          simp
      · rw [if_neg hb1] at h
        by_cases hb2 : b = 2
        · rw [if_pos hb2] at h
          cases hr : readSlice (b :: rest) COL_TYPE_SIZE BIGINT_SIZE with
          | none => rw [hr] at h; exact Option.noConfusion h
          | some bs =>
            rw [hr] at h
            obtain rfl := Option.some.inj h
            simp
        · rw [if_neg hb2] at h
          by_cases hb3 : b = 3
          · rw [if_pos hb3] at h
            cases hr : Col.parse_varchar ((b :: rest).drop COL_TYPE_SIZE) with
            | none => rw [hr] at h; exact Option.noConfusion h
            | some cr =>
              rw [hr] at h
              obtain rfl := Option.some.inj h
              simp
          · rw [if_neg hb3] at h
            obtain rfl := Option.some.inj h
            simp
  · intro rest hl
    simp only [Col.read]
    rw [if_pos trivial]
    rw [show readSlice (1 :: rest) COL_TYPE_SIZE INT_SIZE = none from by
      unfold readSlice
      rw [if_neg (by simp [COL_TYPE_SIZE, INT_SIZE]; omega)]]
  · intro rest hl
    simp only [Col.read]
    rw [if_neg (by decide), if_pos trivial]
    rw [show readSlice (2 :: rest) COL_TYPE_SIZE BIGINT_SIZE = none from by
      unfold readSlice
      rw [if_neg (by simp [COL_TYPE_SIZE, BIGINT_SIZE]; omega)]]
  · intro rest hl
    simp only [Col.read]
    rw [if_neg (by decide), if_neg (by decide), if_pos trivial]
    rw [show (COL_TYPE_SIZE : Nat) = 1 from rfl]
    simp only [List.drop_succ_cons, List.drop_zero]
    simp only [Col.parse_varchar]
    rw [show readSlice rest 0 VARCHAR_LEN_SIZE = none from by
      unfold readSlice
      rw [if_neg (by simp [VARCHAR_LEN_SIZE]; omega)]]

/-- C7 witness: an unknown tag yields `Encoding`; a well-formed 5-byte
`Int` record decodes (so its result is not `EOF`); an `Int` record cut
after the tag byte panics. -/
theorem c7_witness :
    Col.read [7] = some (.error .encoding) ∧
    (Except.ok ((Col.int 0 : Col), (5 : Nat)) : Except DbError (Col × Nat)) ≠
      .error .eof ∧
    Col.read [1] = none :=
  ⟨c7_read_never_eof.1 7 [] (by decide) (by decide) (by decide),
   c7_read_never_eof.2.1 [1, 0, 0, 0, 0] (.ok (.int 0, 5)) rfl,
   c7_read_never_eof.2.2.2.1 [] (by decide)⟩

end Sql
